import Mathlib

/-!
Verification of the hireai resume-parsing / candidate-matching core.

The Python sources are shallowly embedded as executable Lean definitions:

* `src/hireai/core/parser.py`         → namespace `Parser` (skill normalization)
* `src/hireai/core/similarity.py`     → namespace `Similarity`
* `src/Backup/hireai/core/resume_parser.py` → namespace `Resume`
* `src/Backup/hireai/core/ranker.py` and `search.py` → namespace `Ranker`

Python `float` arithmetic is modelled by exact rationals (`ℚ`); Python strings
are modelled over their character lists, with Python's `str.lower`, `\w`, `\s`
classes interpreted on the ASCII range (all string constants of the program are
ASCII).  External libraries (sklearn's TfidfVectorizer/cosine, spaCy NER,
Azure embeddings, pdf/docx text extraction) are not part of this repository;
they enter the model as explicit function parameters.
-/

set_option maxRecDepth 8000

namespace HireAI

/-! ### Character helpers (Python string semantics, ASCII range) -/

/-- Python's `\s` class: space, tab, newline, carriage return, vertical tab, form feed. -/
def pySpaceChar (c : Char) : Bool :=
  c = ' ' || c = '\t' || c = '\n' || c = '\r' || c = '\x0b' || c = '\x0c'

/-- Python's `\w` class (ASCII range): letters, digits, underscore. -/
def wordChar (c : Char) : Bool := c.isAlphanum || c = '_'

/-- Python `str.lower` on one character (ASCII range). -/
def lowerChar (c : Char) : Char :=
  if 65 ≤ c.toNat ∧ c.toNat ≤ 90 then Char.ofNat (c.toNat + 32) else c

/-- Python `str.lower` on a character list. -/
def lowerStr (l : List Char) : List Char := l.map lowerChar

/-- Drop the longest suffix whose characters satisfy `p`. -/
def dropEndWhile (p : Char → Bool) : List Char → List Char
  | [] => []
  | c :: cs =>
    match dropEndWhile p cs with
    | [] => if p c then [] else [c]
    | d :: ds => c :: d :: ds

/-- Python `str.strip()`: remove leading and trailing whitespace. -/
def stripChars (l : List Char) : List Char :=
  dropEndWhile pySpaceChar (l.dropWhile pySpaceChar)

/-- Split a character list at every character satisfying `p`, keeping empty
pieces, as Python's `re.split` on a character class does. -/
def splitWhen (p : Char → Bool) : List Char → List (List Char)
  | [] => [[]]
  | c :: rest =>
    if p c then [] :: splitWhen p rest
    else
      match splitWhen p rest with
      | [] => [[c]]
      | piece :: pieces => (c :: piece) :: pieces

/-- `text.split(sep)` for a single separator character (keeps empty pieces). -/
def splitOnChar (sep : Char) (l : List Char) : List (List Char) :=
  splitWhen (fun c => c = sep) l

/-- Python `str.split()`: split on whitespace runs, dropping empty pieces. -/
def splitWS (l : List Char) : List String :=
  ((splitWhen pySpaceChar l).filter (fun piece => !piece.isEmpty)).map List.asString

/-- Does `pat` occur as a prefix of `l`? (by-hand, to keep the embedding self-contained) -/
def headMatches : List Char → List Char → Bool
  | [], _ => true
  | _ :: _, [] => false
  | p :: ps, c :: cs => p = c && headMatches ps cs

/-- Python's `pat in s` substring test. -/
def containsSub (hay pat : List Char) : Bool :=
  (List.range (hay.length + 1)).any fun i => headMatches pat (hay.drop i)

/-- Python `s.replace(pat, rep)` (all non-overlapping occurrences, left to right).
`fuel` bounds the recursion; callers pass the length of the list. -/
def replaceAllF (pat rep : List Char) : Nat → List Char → List Char
  | _, [] => []
  | 0, l => l
  | fuel + 1, c :: cs =>
    if headMatches pat (c :: cs) && !pat.isEmpty then
      rep ++ replaceAllF pat rep fuel ((c :: cs).drop pat.length)
    else
      c :: replaceAllF pat rep fuel cs

def replaceAll (pat rep l : List Char) : List Char :=
  replaceAllF pat rep l.length l

/-- Python `str.strip()` on a `String`. -/
def pyStrip (s : String) : String := (stripChars s.data).asString

/-- Python `str.lower()` on a `String` (ASCII range). -/
def lowerString (s : String) : String := (lowerStr s.data).asString

/-- Python truthiness of a string pulled out of a dict with `.get`:
`None` and the empty string are falsy. -/
def pyTruthy : Option String → Bool
  | none => false
  | some s => !(s == "")

/-- Python `a or b` for strings: `b` when `a` is empty. -/
def pyOr (a b : String) : String := if a == "" then b else a

/-! ### `src/hireai/core/parser.py` — `ResumeParser.normalize_skills` -/

namespace Parser

/-- The static alias table `self.skill_mappings` (source order preserved). -/
def skill_mappings : List (String × String) :=
  [ ("js", "javascript"),
    ("typescript", "typescript"),
    ("ts", "typescript"),
    ("py", "python"),
    ("c#", "csharp"),
    ("c++", "cpp"),
    ("c plus plus", "cpp"),
    ("ruby on rails", "ruby"),
    ("ror", "ruby"),
    ("postgres", "postgresql"),
    ("postgresql", "postgresql"),
    ("mssql", "sql server"),
    ("ms sql", "sql server"),
    ("mysql", "mysql"),
    ("mongodb", "mongodb"),
    ("nosql", "nosql"),
    ("aws", "amazon web services"),
    ("azure", "microsoft azure"),
    ("gcp", "google cloud platform"),
    ("google cloud", "google cloud platform"),
    ("react.js", "react"),
    ("reactjs", "react"),
    ("react js", "react"),
    ("angular.js", "angular"),
    ("angularjs", "angular"),
    ("vue.js", "vue"),
    ("vuejs", "vue"),
    ("node.js", "nodejs"),
    ("node js", "nodejs"),
    ("express.js", "express"),
    ("expressjs", "express"),
    ("ml", "machine learning"),
    ("ai", "artificial intelligence"),
    ("deep learning", "deep learning"),
    ("dl", "deep learning"),
    ("nlp", "natural language processing"),
    ("computer vision", "computer vision"),
    ("cv", "computer vision"),
    ("ci/cd", "continuous integration"),
    ("cicd", "continuous integration"),
    ("docker", "docker"),
    ("kubernetes", "kubernetes"),
    ("k8s", "kubernetes"),
    ("agile", "agile methodology"),
    ("scrum", "scrum methodology"),
    ("waterfall", "waterfall methodology"),
    ("devops", "devops"),
    ("git", "git"),
    ("github", "git"),
    ("gitlab", "git") ]

/-- `self.skill_mappings.get(part, part)`. -/
def skillMapGet (p : String) : String :=
  match skill_mappings.find? (fun kv => kv.1 == p) with
  | some kv => kv.2
  | none => p

/-- The stop-token set `{'and','or','with','using','via','through'}`. -/
def stopTokens : List String := ["and", "or", "with", "using", "via", "through"]

/-- `re.sub(r'[^\w\s]', ' ', skill)`: every character that is neither a word
character nor whitespace is replaced by a space. -/
def subNonWord (l : List Char) : List Char :=
  l.map fun c => if wordChar c || pySpaceChar c then c else ' '

/-- Delimiter class of `re.split(r'[,/&+]', skill)`. -/
def delimChar (c : Char) : Bool := c = ',' || c = '/' || c = '&' || c = '+'

/-- Body of the `for skill in skills` loop of `normalize_skills`: the
normalized parts contributed by one raw skill string. -/
def processSkill (skill : String) : List String :=
  let cleaned := subNonWord (lowerStr skill.data)
  (splitWhen delimChar cleaned).filterMap fun part =>
    let p := stripChars part
    if p.isEmpty || p.length < 2 then none
    else
      let normalized := skillMapGet (List.asString p)
      if stopTokens.contains normalized then none else some normalized

/-- Python's `<` on strings: lexicographic comparison of the code-point
sequences.  Stated on `String.data` so that it evaluates inside the kernel;
`String.le_iff_toList_le` identifies it with the ambient order on `String`. -/
def strDataLe (a b : String) : Prop := a.data ≤ b.data

instance : DecidableRel strDataLe :=
  fun a b => inferInstanceAs (Decidable (a.data ≤ b.data))

instance : IsTotal String strDataLe := ⟨fun a b => le_total a.data b.data⟩

instance : IsTrans String strDataLe := ⟨fun _ _ _ h1 h2 => le_trans h1 h2⟩

/-- `ResumeParser.normalize_skills`: collect the normalized parts of every
skill into a set and return them sorted (`sorted(list(normalized_skills))`). -/
def normalize_skills (skills : List String) : List String :=
  if skills.isEmpty then []
  else List.insertionSort strDataLe (skills.flatMap processSkill).dedup

end Parser

/-! ### `src/hireai/core/similarity.py` — `SimilarityCalculator`

Python defines `calculate_similarity` / `_calculate_tfidf_similarity` twice in
the class body; the later (dict-based) definitions override the earlier
string-based ones, so only the dict-based versions are embedded.  The
TF-IDF vectorizer and cosine similarity come from sklearn (external): they are
modelled by an explicit parameter `cos : String → String → Option ℚ`, where
`none` stands for the `ValueError` sklearn raises on an empty vocabulary
(the source catches it and substitutes `0.0`). -/

namespace Similarity

/-- A job-info or candidate dict as read by the similarity engine
(`data.get('skills', [])`, `data.get('location', '')`,
`data.get('experience_level', '')`); `none` models an absent key. -/
structure Profile where
  skills : Option (List String) := none
  location : Option String := none
  experience_level : Option String := none

/-- The `detailed_scores` dict `{'skills': …, 'location': …, 'experience': …}`. -/
structure DetailedScores where
  skills : ℚ
  location : ℚ
  experience : ℚ
deriving DecidableEq

/-- `' '.join(parts)`. -/
def joinSpace (l : List String) : String := String.intercalate " " l

/-- `SimilarityCalculator._calculate_skills_similarity`. -/
def calcSkillsSimilarity (cos : String → String → Option ℚ)
    (job_skills candidate_skills : List String) : ℚ :=
  if job_skills.isEmpty || candidate_skills.isEmpty then 0
  else
    match cos (joinSpace job_skills) (joinSpace candidate_skills) with
    | some v => v
    | none => 0

/-- `SimilarityCalculator._calculate_location_similarity`. -/
def calcLocationSimilarity (cos : String → String → Option ℚ)
    (job_location candidate_location : String) : ℚ :=
  if job_location.isEmpty || candidate_location.isEmpty then 0
  else
    match cos job_location candidate_location with
    | some v => v
    | none => 0

/-- `SimilarityCalculator._calculate_experience_similarity`. -/
def calcExperienceSimilarity (cos : String → String → Option ℚ)
    (job_experience candidate_experience : String) : ℚ :=
  if job_experience.isEmpty || candidate_experience.isEmpty then 0
  else
    match cos job_experience candidate_experience with
    | some v => v
    | none => 0

/-- `SimilarityCalculator._prepare_text_for_tfidf` (a key contributes exactly
when it is present in the dict). -/
def prepareTextForTfidf (data : Profile) : String :=
  joinSpace
    ((match data.skills with | some l => l | none => []) ++
      (match data.location with | some s => [s] | none => []) ++
      (match data.experience_level with | some s => [s] | none => []))

/-- `SimilarityCalculator._calculate_tfidf_similarity` (dict version, the one
in force).  The full-text cosine `similarity` is computed by the source and
then never used in the returned value; it is kept here as `_similarity`. -/
def calcTfidfSimilarity (cos : String → String → Option ℚ)
    (job_info candidate : Profile) : ℚ × DetailedScores :=
  let job_text := prepareTextForTfidf job_info
  let candidate_text := prepareTextForTfidf candidate
  let _similarity := (cos job_text candidate_text).getD 0
  let detailed_scores : DetailedScores :=
    { skills := calcSkillsSimilarity cos (job_info.skills.getD [])
        (candidate.skills.getD [])
      location := calcLocationSimilarity cos (job_info.location.getD "")
        (candidate.location.getD "")
      experience := calcExperienceSimilarity cos (job_info.experience_level.getD "")
        (candidate.experience_level.getD "") }
  let weighted_score := detailed_scores.skills * (0.6 : ℚ) +
    detailed_scores.location * (0.2 : ℚ) + detailed_scores.experience * (0.2 : ℚ)
  (weighted_score, detailed_scores)

/-- The `method` selected at construction time (`"tfidf"` or `"embeddings"`). -/
inductive SimMethod
  | tfidf
  | embeddings

/-- `SimilarityCalculator.calculate_similarity` (dict version): dispatches on
the configured method.  The embeddings branch depends on the external
embedding model, abstracted as `embeddingResult`. -/
def calculate_similarity (method : SimMethod) (cos : String → String → Option ℚ)
    (embeddingResult : ℚ × DetailedScores) (job_info candidate : Profile) :
    ℚ × DetailedScores :=
  match method with
  | .tfidf => calcTfidfSimilarity cos job_info candidate
  | .embeddings => embeddingResult

end Similarity

/-! ### `src/Backup/hireai/core/ranker.py` — `CandidateRanker.rank`
(and the identically-shaped `JobSearch.search` of `search.py`)

Candidate records are Python dicts with JSON-like values; `rank` zips them
with the cosine-similarity scores produced by the external TF-IDF
vectorizer (modelled as an explicit list `similarity_scores`), copies each
dict, sets its `'score'` key, and sorts the copies descending by score with
Python's stable `list.sort(key=..., reverse=True)`.  A stable descending
sort is exactly insertion sort with the relation "score of the left argument
is at least the score of the right argument": an element is placed after
every earlier element with a strictly larger score and before every element
with an equal or smaller one. -/

namespace Ranker

/-- JSON-like dict values (spec §6: primitives / sequences / nested mappings). -/
inductive Val where
  | str (s : String)
  | num (q : ℚ)
  | arr (vs : List Val)
  | obj (fields : List (String × Val))

/-- A Python dict: ordered association list with (in practice) unique keys. -/
abbrev Dict := List (String × Val)

/-- `d[k]` lookup (`None`-free: `none` models a `KeyError`/absent key). -/
def getVal (d : Dict) (k : String) : Option Val :=
  (d.find? (fun kv => kv.1 == k)).map (fun kv => kv.2)

/-- `d[k] = v`: replace the value at the first occurrence of `k` in place,
or append the new key at the end — CPython dict-assignment order semantics. -/
def setKey : Dict → String → Val → Dict
  | [], k, v => [(k, v)]
  | kv₀ :: rest, k, v =>
    if kv₀.1 == k then (kv₀.1, v) :: rest else kv₀ :: setKey rest k v

/-- `x['score']` as read by the sort key (every dict sorted by `rank` has just
been given a numeric score, so the default branch is never exercised there). -/
def scoreOf (d : Dict) : ℚ :=
  match getVal d "score" with
  | some (.num q) => q
  | _ => 0

/-- The sort relation of `ranked_candidates.sort(key=lambda x: x['score'],
reverse=True)`: `a` may be placed before `b` iff `a`'s score is at least
`b`'s. -/
def rankRel (a b : Dict) : Prop := scoreOf b ≤ scoreOf a

instance : DecidableRel rankRel :=
  fun a b => inferInstanceAs (Decidable (scoreOf b ≤ scoreOf a))

instance : IsTotal Dict rankRel := ⟨fun a b => le_total (scoreOf b) (scoreOf a)⟩

instance : IsTrans Dict rankRel := ⟨fun _ _ _ h1 h2 => le_trans h2 h1⟩

/-- The `ranked_candidates` list before sorting: `candidate.copy()` with
`candidate_copy['score'] = float(score)`, in input order (`zip` truncates to
the shorter list, as in Python). -/
def scoredCandidates (candidates : List Dict) (similarity_scores : List ℚ) :
    List Dict :=
  (candidates.zip similarity_scores).map fun cs => setKey cs.1 "score" (Val.num cs.2)

/-- `CandidateRanker.rank`: score every candidate, then stable-sort descending. -/
def rank (candidates : List Dict) (similarity_scores : List ℚ) : List Dict :=
  List.insertionSort rankRel (scoredCandidates candidates similarity_scores)

/-! #### Heap model of `rank` (claim C10)

To state that `rank` never mutates its inputs, dicts live in an explicit
store and candidates are passed by address, as Python passes references.
`rank` reads the input cells, allocates a fresh cell per candidate holding
the copy-with-score, and returns the fresh addresses sorted by score; the
store is only ever extended. -/

abbrev Store := List Dict

/-- Sort relation on addresses, reading scores through the store. -/
def heapRel (σ : Store) (a b : Nat) : Prop :=
  scoreOf (σ.getD b []) ≤ scoreOf (σ.getD a [])

instance (σ : Store) : DecidableRel (heapRel σ) :=
  fun _ _ => inferInstanceAs (Decidable (_ ≤ _))

/-- `CandidateRanker.rank` over the explicit store: returns the extended
store and the addresses of the ranked copies. -/
def rankHeap (σ : Store) (addrs : List Nat) (scores : List ℚ) :
    Store × List Nat :=
  let copies := (addrs.zip scores).map fun as =>
    setKey (σ.getD as.1 []) "score" (Val.num as.2)
  let σ₂ := σ ++ copies
  let freshAddrs := List.range' σ.length copies.length
  (σ₂, List.insertionSort (heapRel σ₂) freshAddrs)

end Ranker

/-! ### `src/Backup/hireai/core/resume_parser.py` — dates and total experience

`datetime.strptime(s, "%Y-%m-%d")` accepts exactly: four digits, `-`, a month
matching `1[0-2]|0[1-9]|[1-9]`, `-`, a day matching `3[01]|[12]\d|0[1-9]|[1-9]`,
with nothing left over, and then validates the calendar date (`datetime`
raises `ValueError` for year 0 or a day beyond the month's length, leap years
included).  `(end - start).days` is the difference of proleptic-Gregorian day
ordinals (`date.toordinal`, with 0001-01-01 = day 1). -/

namespace Resume

/-- The month pattern `1[0-2]|0[1-9]|[1-9]` of `_strptime`, alternatives in
order; returns the month and the remaining characters. -/
def parseMonthPart : List Char → Option (Nat × List Char)
  | c1 :: c2 :: rest =>
    if c1 = '1' && (c2 = '0' || c2 = '1' || c2 = '2') then
      some (10 + (c2.toNat - 48), rest)
    else if c1 = '0' && c2.isDigit && c2 ≠ '0' then some (c2.toNat - 48, rest)
    else if c1.isDigit && c1 ≠ '0' then some (c1.toNat - 48, c2 :: rest)
    else none
  | [c1] => if c1.isDigit && c1 ≠ '0' then some (c1.toNat - 48, []) else none
  | [] => none

/-- The day pattern `3[01]|[12]\d|0[1-9]|[1-9]` of `_strptime`. -/
def parseDayPart : List Char → Option (Nat × List Char)
  | c1 :: c2 :: rest =>
    if c1 = '3' && (c2 = '0' || c2 = '1') then some (30 + (c2.toNat - 48), rest)
    else if (c1 = '1' || c1 = '2') && c2.isDigit then
      some ((c1.toNat - 48) * 10 + (c2.toNat - 48), rest)
    else if c1 = '0' && c2.isDigit && c2 ≠ '0' then some (c2.toNat - 48, rest)
    else if c1.isDigit && c1 ≠ '0' then some (c1.toNat - 48, c2 :: rest)
    else none
  | [c1] => if c1.isDigit && c1 ≠ '0' then some (c1.toNat - 48, []) else none
  | [] => none

def isLeapYear (y : Nat) : Bool := (y % 4 = 0 && y % 100 ≠ 0) || y % 400 = 0

def daysInMonth (y m : Nat) : Nat :=
  if m = 2 then (if isLeapYear y then 29 else 28)
  else if m = 4 || m = 6 || m = 9 || m = 11 then 30
  else 31

/-- `datetime.strptime(s, "%Y-%m-%d")`, as year/month/day; `none` models the
`ValueError` on malformed input or an invalid calendar date. -/
def parseYMD (s : String) : Option (Nat × Nat × Nat) :=
  match s.data with
  | y1 :: y2 :: y3 :: y4 :: '-' :: rest =>
    if y1.isDigit && y2.isDigit && y3.isDigit && y4.isDigit then
      match parseMonthPart rest with
      | some (m, '-' :: rest2) =>
        match parseDayPart rest2 with
        | some (d, []) =>
          let y := (y1.toNat - 48) * 1000 + (y2.toNat - 48) * 100 +
            (y3.toNat - 48) * 10 + (y4.toNat - 48)
          if 1 ≤ y && 1 ≤ d && d ≤ daysInMonth y m then some (y, m, d) else none
        | _ => none
      | _ => none
    else none
  | _ => none

/-- Days in the months of `y` strictly before month `m`. -/
def daysBeforeMonth (y m : Nat) : Nat :=
  ((List.range' 1 (m - 1)).map (daysInMonth y)).sum

/-- Python `date.toordinal()`: proleptic-Gregorian day number, 0001-01-01 = 1. -/
def toOrdinal (d : Nat × Nat × Nat) : ℤ :=
  let py := d.1 - 1
  (365 * py + py / 4 - py / 100 + py / 400 + daysBeforeMonth d.1 d.2.1 + d.2.2 : Int)

/-- One experience entry as assembled by `_extract_experience` / consumed by
`_calculate_total_experience` (`.get` of a missing key is `none`). -/
structure ExpEntry where
  title : String := ""
  company : String := ""
  start_date : Option String := none
  end_date : Option String := none
  description : String := ""
  skills : List String := []
deriving DecidableEq

/-- Python `round(x)` for an exactly-represented value: round half to even. -/
def roundHalfEven (q : ℚ) : ℤ :=
  if q - ⌊q⌋ < 1 / 2 then ⌊q⌋
  else if 1 / 2 < q - ⌊q⌋ then ⌊q⌋ + 1
  else if ⌊q⌋ % 2 = 0 then ⌊q⌋ else ⌊q⌋ + 1

/-- Python `round(x, 1)`. -/
def roundTo1 (q : ℚ) : ℚ := (roundHalfEven (q * 10) : ℚ) / 10

/-- `ResumeParser._calculate_total_experience`: fold over the entries, adding
`(end - start).days / 365.25` whenever both dates are truthy and parse;
unparsable dates are skipped by the `except (ValueError, TypeError)`. -/
def calculate_total_experience (experience : List ExpEntry) : ℚ :=
  let total_years := experience.foldl (fun acc exp =>
    if pyTruthy exp.start_date && pyTruthy exp.end_date then
      match parseYMD (exp.start_date.getD ""), parseYMD (exp.end_date.getD "") with
      | some s, some e => acc + ((toOrdinal e - toOrdinal s : ℤ) : ℚ) / (365.25 : ℚ)
      | _, _ => acc
    else acc) 0
  roundTo1 total_years

/-- The duration contributed by one entry when both of its dates parse as
YYYY-MM-DD calendar dates: `(end − start)` in days divided by 365.25. -/
def entryDuration (exp : ExpEntry) : Option ℚ :=
  match parseYMD (exp.start_date.getD ""), parseYMD (exp.end_date.getD "") with
  | some s, some e => some (((toOrdinal e - toOrdinal s : ℤ) : ℚ) / (365.25 : ℚ))
  | _, _ => none

/-- The claim's formula, stated by its own words: the sum, over entries whose
`start_date` and `end_date` both parse as YYYY-MM-DD calendar dates, of
`(end − start)` in days divided by 365.25, rounded to one decimal place. -/
def specTotalYears (experience : List ExpEntry) : ℚ :=
  roundTo1 (experience.filterMap entryDuration).sum

/-- The parsed day ordinals of an entry's date pair, when both parse. -/
def entryOrds (exp : ExpEntry) : Option (ℤ × ℤ) :=
  match parseYMD (exp.start_date.getD ""), parseYMD (exp.end_date.getD "") with
  | some s, some e => some (toOrdinal s, toOrdinal e)
  | _, _ => none

/-! #### `ResumeParser._read_file` (claim C8) -/

/-- Index of the last occurrence of `c` in `l`. -/
def lastIndexOfChar (c : Char) (l : List Char) : Option Nat :=
  match l.reverse.findIdx? (fun x => x = c) with
  | some i => some (l.length - 1 - i)
  | none => none

/-- The part of a POSIX path after the last `/`. -/
def baseNameChars (path : List Char) : List Char :=
  match lastIndexOfChar '/' path with
  | some i => path.drop (i + 1)
  | none => path

/-- `os.path.splitext(path)[1]`: the extension starts at the basename's last
dot, provided some earlier character of the basename is not a dot (a purely
leading-dot name such as `.bashrc` has no extension). -/
def splitextExt (path : String) : String :=
  let base := baseNameChars path.data
  match lastIndexOfChar '.' base with
  | none => ""
  | some d =>
    if (base.take d).any (fun c => c ≠ '.') then (base.drop d).asString else ""

/-- The error exits of `_read_file` (each a `raise` in the source; the
enclosing `except` re-wraps them but preserves which failure occurred). -/
inductive ReadErr where
  | fileNotFound
  | unsupportedFormat
  | emptyContent
deriving DecidableEq

/-- `ResumeParser._read_file`.  The text produced by the format-specific
extraction step is external input to this function: `pdfText` models
`pdfminer.extract_text`, `docxText` models `docx2txt.process`, and `txtText`
the content of the `.txt` file.  Note the source checks `if not text` on the
raw extracted text and strips only afterwards. -/
def read_file (fileExists : Bool) (pdfText docxText txtText : String)
    (path : String) : Except ReadErr String :=
  if !fileExists then .error .fileNotFound
  else
    let ext := lowerString (splitextExt path)
    let extracted : Except ReadErr String :=
      if ext == ".pdf" then .ok pdfText
      else if ext == ".docx" then .ok docxText
      else if ext == ".txt" then .ok txtText
      else .error .unsupportedFormat
    match extracted with
    | .error e => .error e
    | .ok text =>
      if text == "" then .error .emptyContent
      else .ok (pyStrip text)

/-! #### A small regex engine (claims C7, C9)

The entity extractors of `resume_parser.py` use `re.search` with a handful of
patterns built from character classes, greedy repetition, literals,
alternation and `\b`.  `RE` is an AST for exactly those constructs;
`reMatches` returns the possible match end positions at a given start, in
backtracking priority order (greedy repetition longest-first, alternatives in
source order), so the head of the list at the leftmost matching start is
`re.search`'s match — Python's leftmost, then priority-ordered, semantics. -/

inductive RE where
  | lit (s : List Char)
  | clsRep (p : Char → Bool) (lo : Nat) (hi : Option Nat)
  | bnd
  | eps
  | seq (a b : RE)
  | alt (a b : RE)

/-- Is the character at index `i` (if any) a word character? -/
def isWordAt (t : List Char) (i : Nat) : Bool :=
  match t[i]? with
  | some c => wordChar c
  | none => false

/-- `\b` at position `i`: word-ness changes between positions `i-1` and `i`
(out of range counts as non-word). -/
def wordBoundaryAt (t : List Char) (i : Nat) : Bool :=
  (if i = 0 then false else isWordAt t (i - 1)) != isWordAt t i

/-- Length of the maximal run of characters satisfying `p`. -/
def countRun (p : Char → Bool) : List Char → Nat
  | [] => 0
  | c :: cs => if p c then countRun p cs + 1 else 0

/-- Match end positions of `r` at start `i`, greedy/priority order first. -/
def reMatches (t : List Char) : RE → Nat → List Nat
  | .lit s, i => if headMatches s (t.drop i) then [i + s.length] else []
  | .clsRep p lo hi, i =>
    let m := countRun p (t.drop i)
    let top := match hi with | some h => min m h | none => m
    if top < lo then []
    else (List.range (top + 1 - lo)).map (fun k => i + top - k)
  | .bnd, i => if wordBoundaryAt t i then [i] else []
  | .eps, i => [i]
  | .seq a b, i => ((reMatches t a i).map (fun e => reMatches t b e)).flatten
  | .alt a b, i => reMatches t a i ++ reMatches t b i

/-- `re.search`: the leftmost start with a match, paired with the match end
of the highest-priority match there. -/
def reSearch (t : List Char) (r : RE) : Option (Nat × Nat) :=
  (List.range (t.length + 1)).findSome? fun i =>
    match reMatches t r i with
    | [] => none
    | e :: _ => some (i, e)

/-- `match.group(0)`: the matched slice of the subject. -/
def reGroup0 (t : List Char) (ie : Nat × Nat) : List Char :=
  (t.take ie.2).drop ie.1

def reStr (s : String) : RE := .lit s.data

def rePlus (p : Char → Bool) : RE := .clsRep p 1 none

def reStar (p : Char → Bool) : RE := .clsRep p 0 none

def reOpt (p : Char → Bool) : RE := .clsRep p 0 (some 1)

def reAlts : List RE → RE
  | [] => .eps
  | [r] => r
  | r :: rs => .alt r (reAlts rs)

def reSeqs : List RE → RE
  | [] => .eps
  | [r] => r
  | r :: rs => .seq r (reSeqs rs)

def boolSearch (r : RE) (t : List Char) : Bool := (reSearch t r).isSome

/-! #### `_extract_email` / `_extract_phone` -/

/-- `[A-Za-z0-9._%+-]`. -/
def emailLocalChar (c : Char) : Bool :=
  c.isAlphanum || c = '.' || c = '_' || c = '%' || c = '+' || c = '-'

/-- `[A-Za-z0-9.-]`. -/
def emailDomainChar (c : Char) : Bool := c.isAlphanum || c = '.' || c = '-'

/-- `[A-Z|a-z]` — the source's class literally contains `|`. -/
def emailTldChar (c : Char) : Bool := c.isAlpha || c = '|'

def digitChar (c : Char) : Bool := c.isDigit

/-- `[-.\s]`. -/
def phoneSepChar (c : Char) : Bool := c = '-' || c = '.' || pySpaceChar c

/-- `\b[A-Za-z0-9._%+-]+@[A-Za-z0-9.-]+\.[A-Z|a-z]{2,}\b`. -/
def emailPat1 : RE :=
  reSeqs [.bnd, rePlus emailLocalChar, reStr "@", rePlus emailDomainChar,
    reStr ".", .clsRep emailTldChar 2 none, .bnd]

/-- `\b[A-Za-z0-9._%+-]+\[at\][A-Za-z0-9.-]+\.[A-Z|a-z]{2,}\b`. -/
def emailPat2 : RE :=
  reSeqs [.bnd, rePlus emailLocalChar, reStr "[at]", rePlus emailDomainChar,
    reStr ".", .clsRep emailTldChar 2 none, .bnd]

/-- `\b[A-Za-z0-9._%+-]+\s*@\s*[A-Za-z0-9.-]+\.[A-Z|a-z]{2,}\b`. -/
def emailPat3 : RE :=
  reSeqs [.bnd, rePlus emailLocalChar, reStar pySpaceChar, reStr "@",
    reStar pySpaceChar, rePlus emailDomainChar, reStr ".",
    .clsRep emailTldChar 2 none, .bnd]

/-- `ResumeParser._extract_email`: first pattern with a match; clean up with
`.replace('[at]','@').replace(' ','')` and lowercase. -/
def extract_email (text : String) : String :=
  if text == "" then "Not provided"
  else
    match [emailPat1, emailPat2, emailPat3].findSome? (reSearch text.data) with
    | some ie =>
      let email := reGroup0 text.data ie
      (lowerStr ((replaceAll ("[at]".data) ("@".data) email).filter
        (fun c => c ≠ ' '))).asString
    | none => "Not provided"

/-- `\b(?:\+\d{1,3}[-.\s]?)?\(?\d{3}\)?[-.\s]?\d{3}[-.\s]?\d{4}\b`. -/
def phonePat1 : RE :=
  reSeqs [.bnd,
    .alt (reSeqs [reStr "+", .clsRep digitChar 1 (some 3), reOpt phoneSepChar]) .eps,
    reOpt (fun c => c = '('), .clsRep digitChar 3 (some 3),
    reOpt (fun c => c = ')'), reOpt phoneSepChar, .clsRep digitChar 3 (some 3),
    reOpt phoneSepChar, .clsRep digitChar 4 (some 4), .bnd]

/-- `\b\d{3}[-.\s]?\d{3}[-.\s]?\d{4}\b`. -/
def phonePat2 : RE :=
  reSeqs [.bnd, .clsRep digitChar 3 (some 3), reOpt phoneSepChar,
    .clsRep digitChar 3 (some 3), reOpt phoneSepChar,
    .clsRep digitChar 4 (some 4), .bnd]

/-- `\b\(\d{3}\)\s*\d{3}[-.\s]?\d{4}\b`. -/
def phonePat3 : RE :=
  reSeqs [.bnd, reStr "(", .clsRep digitChar 3 (some 3), reStr ")",
    reStar pySpaceChar, .clsRep digitChar 3 (some 3), reOpt phoneSepChar,
    .clsRep digitChar 4 (some 4), .bnd]

/-- `\b\+\d{1,3}\s*\d{3}\s*\d{3}\s*\d{4}\b`. -/
def phonePat4 : RE :=
  reSeqs [.bnd, reStr "+", .clsRep digitChar 1 (some 3), reStar pySpaceChar,
    .clsRep digitChar 3 (some 3), reStar pySpaceChar,
    .clsRep digitChar 3 (some 3), reStar pySpaceChar,
    .clsRep digitChar 4 (some 4), .bnd]

/-- `ResumeParser._extract_phone`: first pattern with a match; keep only
digits and `+` (`re.sub(r'[^\d+]', '', phone)`). -/
def extract_phone (text : String) : String :=
  if text == "" then "Not provided"
  else
    match [phonePat1, phonePat2, phonePat3, phonePat4].findSome?
        (reSearch text.data) with
    | some ie =>
      ((reGroup0 text.data ie).filter (fun c => c.isDigit || c = '+')).asString
    | none => "Not provided"

/-! #### `_extract_name` / `_extract_skills` -/

/-- Does the word start with an upper-case character (`word[0].isupper()`)? -/
def firstUpper (w : String) : Bool :=
  match w.data with
  | c :: _ => c.isUpper
  | [] => false

/-- `ResumeParser._extract_name`.  The spaCy PERSON-entity lookup is external
and enters as `ner`; the fallback scans the first 5 lines for two leading
capitalized words. -/
def extract_name (ner : String → Option String) (text : String) : String :=
  if text == "" then "Unknown"
  else
    match ner text with
    | some n => n
    | none =>
      match ((splitOnChar '\n' text.data).take 5).findSome? (fun line =>
          let words := splitWS (stripChars line)
          if 2 ≤ words.length && (words.take 2).all firstUpper then
            some (String.intercalate " " (words.take 2))
          else none) with
      | some nm => nm
      | none => "Unknown"

/-- The `common_skills` lexicon of `_extract_skills` (source order). -/
def common_skills : List String :=
  [ "python", "java", "javascript", "typescript", "react", "angular", "vue",
    "node.js", "express", "django", "flask", "spring", "aws", "azure", "gcp",
    "docker", "kubernetes", "jenkins", "git", "sql", "nosql", "mongodb",
    "postgresql", "mysql", "redis", "html", "css", "sass", "less", "bootstrap",
    "tailwind", "material-ui", "redux", "graphql", "rest", "api", "microservices",
    "ci/cd", "devops", "agile", "scrum", "jira", "confluence", "linux", "unix" ]

/-- `ResumeParser._extract_skills`: substring search of each lexicon entry in
the lowercased text, collected in lexicon order. -/
def extract_skills (text : String) : List String :=
  if text == "" then []
  else
    let text_lower := lowerStr text.data
    common_skills.filter fun skill => containsSub text_lower skill.data

/-! #### `_extract_education` -/

/-- `(?i)(bachelor|master|phd|b\.?s\.?|m\.?s\.?|b\.?e\.?|m\.?e\.?)` — the
two-letter abbreviations with optional dots. -/
def abbrevRE (a b : String) : RE :=
  reSeqs [reStr a, reOpt (fun c => c = '.'), reStr b, reOpt (fun c => c = '.')]

def degreeRE : RE :=
  reAlts [reStr "bachelor", reStr "master", reStr "phd", abbrevRE "b" "s",
    abbrevRE "m" "s", abbrevRE "b" "e", abbrevRE "m" "e"]

/-- `(?i)(university|college|institute)`. -/
def institutionRE : RE :=
  reAlts [reStr "university", reStr "college", reStr "institute"]

/-- `(?i)(computer science|engineering|information technology|it)`. -/
def fieldRE : RE :=
  reAlts [reStr "computer science", reStr "engineering",
    reStr "information technology", reStr "it"]

/-- `(\d{4})\s*-\s*(\d{4}|\w+)` at position `i`: the two captured groups.
Greedy `\s*` is exact because `-` is not whitespace; the alternative `\d{4}`
is tried before `\w+`, as in the source. -/
def dateRangeAt (t : List Char) (i : Nat) : Option (List Char × List Char) :=
  match t.drop i with
  | a :: b :: c :: d :: rest =>
    if [a, b, c, d].all digitChar then
      match rest.drop (countRun pySpaceChar rest) with
      | '-' :: rest2 =>
        let rest3 := rest2.drop (countRun pySpaceChar rest2)
        match rest3 with
        | e :: f :: g :: h :: _ =>
          if [e, f, g, h].all digitChar then some ([a, b, c, d], [e, f, g, h])
          else
            let n := countRun wordChar rest3
            if n = 0 then none else some ([a, b, c, d], rest3.take n)
        | _ =>
          let n := countRun wordChar rest3
          if n = 0 then none else some ([a, b, c, d], rest3.take n)
      | _ => none
    else none
  | _ => none

def findDateRange (t : List Char) : Option (List Char × List Char) :=
  (List.range (t.length + 1)).findSome? (dateRangeAt t)

/-- `(?i)(gpa|grade point average)[:\s]+(\d+\.?\d*)` at position `i` of the
lowercased line: the second captured group. -/
def gpaAt (t : List Char) (i : Nat) : Option (List Char) :=
  let after : Option (List Char) :=
    if headMatches ("gpa".data) (t.drop i) then some (t.drop (i + 3))
    else if headMatches ("grade point average".data) (t.drop i) then
      some (t.drop (i + 19))
    else none
  match after with
  | none => none
  | some rest =>
    let k := countRun (fun c => c = ':' || pySpaceChar c) rest
    if k = 0 then none
    else
      let rest2 := rest.drop k
      let d1 := countRun digitChar rest2
      if d1 = 0 then none
      else
        match rest2.drop d1 with
        | '.' :: rest4 =>
          some (rest2.take d1 ++ '.' :: rest4.take (countRun digitChar rest4))
        | _ => some (rest2.take d1)

def findGpa (t : List Char) : Option (List Char) :=
  (List.range (t.length + 1)).findSome? (gpaAt t)

def natOfDigits (l : List Char) : Nat :=
  l.foldl (fun acc c => acc * 10 + (c.toNat - 48)) 0

/-- `float(...)` on a `\d+\.?\d*` match. -/
def parseDecimal (l : List Char) : ℚ :=
  match splitOnChar '.' l with
  | [ip] => natOfDigits ip
  | [ip, fp] => natOfDigits ip + (natOfDigits fp : ℚ) / ((10 : ℚ) ^ fp.length)
  | _ => 0

/-- One education entry, as assembled by `_extract_education`. -/
structure EduEntry where
  degree : String
  field_of_study : String
  institution : String
  start_date : String
  end_date : String
  gpa : ℚ
deriving DecidableEq

/-- Does the (lowercased) line match any of the three education patterns? -/
def isEduLine (low : List Char) : Bool :=
  boolSearch degreeRE low || boolSearch institutionRE low ||
    boolSearch fieldRE low

/-- The new accumulator built from an education-matching stripped line
(`line` is the original-case line, searched case-insensitively via its
lowercased form; `group(0)` slices keep the original case). -/
def newEduFromLine (today : String) (line : List Char) : EduEntry :=
  let low := lowerStr line
  let base : EduEntry :=
    { degree := "", field_of_study := "Not specified", institution := "",
      start_date := today, end_date := today, gpa := 0 }
  let e1 :=
    match reSearch low degreeRE with
    | some ie => { base with degree := (reGroup0 line ie).asString }
    | none => base
  let e2 :=
    match reSearch low fieldRE with
    | some ie => { e1 with field_of_study := (reGroup0 line ie).asString }
    | none => e1
  let e3 :=
    if (reSearch low institutionRE).isSome then
      { e2 with institution := line.asString }
    else e2
  let e4 :=
    match findDateRange line with
    | some (sy, ey) =>
      let s := { e3 with start_date := sy.asString ++ "-01-01" }
      if !ey.isEmpty && ey.all digitChar then
        { s with end_date := ey.asString ++ "-12-31" }
      else { s with end_date := today }
    | none => e3
  match findGpa low with
  | some g => { e4 with gpa := parseDecimal g }
  | none => e4

/-- The commit-time defaults (`or`-expressions of the source; all fields are
initialized non-empty, so they are identities in practice, kept for
faithfulness). -/
def commitEdu (today : String) (e : EduEntry) : EduEntry :=
  { e with
    field_of_study := pyOr e.field_of_study "Not specified",
    start_date := pyOr e.start_date today,
    end_date := pyOr e.end_date today,
    gpa := if e.gpa == 0 then 0 else e.gpa }

/-- `ResumeParser._extract_education`: line-oriented accumulator; an entry is
emitted only when a new education line (or the end of input) is reached and
both `degree` and `institution` are non-empty. -/
def extract_education (today : String) (text : String) : List EduEntry :=
  let step : List EduEntry × Option EduEntry → List Char →
      List EduEntry × Option EduEntry := fun state rawLine =>
    let line := stripChars rawLine
    if line.isEmpty then state
    else if isEduLine (lowerStr line) then
      let committed :=
        match state.2 with
        | some cur =>
          if !(cur.degree == "") && !(cur.institution == "") then
            state.1 ++ [commitEdu today cur]
          else state.1
        | none => state.1
      (committed, some (newEduFromLine today line))
    else state
  match (splitOnChar '\n' text.data).foldl step ([], none) with
  | (acc, some cur) =>
    if !(cur.degree == "") && !(cur.institution == "") then
      acc ++ [commitEdu today cur]
    else acc
  | (acc, none) => acc

/-! #### `_extract_experience` -/

/-- `(?i)(experience|work|employment)`. -/
def expKeywordRE : RE :=
  reAlts [reStr "experience", reStr "work", reStr "employment"]

/-- `(?i)(years?|months?)`. -/
def durationRE : RE :=
  .alt (reSeqs [reStr "year", reOpt (fun c => c = 's')])
    (reSeqs [reStr "month", reOpt (fun c => c = 's')])

/-- `(?i)(developer|engineer|architect|consultant|manager)`. -/
def titleRE : RE :=
  reAlts [reStr "developer", reStr "engineer", reStr "architect",
    reStr "consultant", reStr "manager"]

/-- `(?i)(inc\.?|ltd\.?|llc|corp\.?|company)`. -/
def companyRE : RE :=
  reAlts [reSeqs [reStr "inc", reOpt (fun c => c = '.')],
    reSeqs [reStr "ltd", reOpt (fun c => c = '.')], reStr "llc",
    reSeqs [reStr "corp", reOpt (fun c => c = '.')], reStr "company"]

/-- `(?i)(present|current|now)`. -/
def presentRE : RE := reAlts [reStr "present", reStr "current", reStr "now"]

def isExpLine (low : List Char) : Bool :=
  boolSearch expKeywordRE low || boolSearch durationRE low ||
    boolSearch titleRE low || boolSearch presentRE low

/-- `(\d{4})\s*-\s*(present|current|now)` (case-insensitive: applied to the
lowercased line): the start year. -/
def dateCurrentAt (t : List Char) (i : Nat) : Option (List Char) :=
  match t.drop i with
  | a :: b :: c :: d :: rest =>
    if [a, b, c, d].all digitChar then
      match rest.drop (countRun pySpaceChar rest) with
      | '-' :: rest2 =>
        let rest3 := rest2.drop (countRun pySpaceChar rest2)
        if headMatches ("present".data) rest3 || headMatches ("current".data) rest3 ||
            headMatches ("now".data) rest3 then some [a, b, c, d]
        else none
      | _ => none
    else none
  | _ => none

def findDateCurrent (t : List Char) : Option (List Char) :=
  (List.range (t.length + 1)).findSome? (dateCurrentAt t)

/-- The new accumulator built from an experience-matching stripped line. -/
def newExpFromLine (today : String) (line : List Char) : ExpEntry :=
  let low := lowerStr line
  let base : ExpEntry :=
    { title := "", company := "", start_date := some today,
      end_date := some today, description := "No description provided",
      skills := [] }
  let e1 :=
    match reSearch low titleRE with
    | some ie => { base with title := (reGroup0 line ie).asString }
    | none => base
  let e2 :=
    if (reSearch low companyRE).isSome then { e1 with company := line.asString }
    else e1
  let is_current := boolSearch presentRE low
  let e3 :=
    if !is_current then
      match findDateRange line with
      | some (sy, ey) =>
        let s := { e2 with start_date := some (sy.asString ++ "-01-01") }
        if !ey.isEmpty && ey.all digitChar then
          { s with end_date := some (ey.asString ++ "-12-31") }
        else { s with end_date := some today }
      | none => e2
    else
      match findDateCurrent low with
      | some sy =>
        { e2 with
          start_date := some (sy.asString ++ "-01-01")
          end_date := some today }
      | none => e2
  let skills := extract_skills line.asString
  if !skills.isEmpty then { e3 with skills := skills } else e3

/-- Commit-time `or`-defaults of an experience entry (identities in practice,
kept for faithfulness: every field is initialized non-empty). -/
def commitExp (today : String) (e : ExpEntry) : ExpEntry :=
  { e with
    description := pyOr e.description "No description provided",
    skills := e.skills,
    start_date := some (pyOr (e.start_date.getD "") today),
    end_date := some (pyOr (e.end_date.getD "") today) }

/-- `ResumeParser._extract_experience`: same accumulator pattern as
education, emitting only when both `title` and `company` are non-empty. -/
def extract_experience (today : String) (text : String) : List ExpEntry :=
  if text == "" then []
  else
    let step : List ExpEntry × Option ExpEntry → List Char →
        List ExpEntry × Option ExpEntry := fun state rawLine =>
      let line := stripChars rawLine
      if line.isEmpty then state
      else if isExpLine (lowerStr line) then
        let committed :=
          match state.2 with
          | some cur =>
            if !(cur.title == "") && !(cur.company == "") then
              state.1 ++ [commitExp today cur]
            else state.1
          | none => state.1
        (committed, some (newExpFromLine today line))
      else state
    match (splitOnChar '\n' text.data).foldl step ([], none) with
    | (acc, some cur) =>
      if !(cur.title == "") && !(cur.company == "") then
        acc ++ [commitExp today cur]
      else acc
    | (acc, none) => acc

/-! #### `parse_resume` -/

/-- The record returned by `ResumeParser.parse_resume`. -/
structure ParsedResume where
  name : String
  email : String
  phone : String
  skills : List String
  education : List EduEntry
  experience : List ExpEntry
  total_experience : ℚ
deriving DecidableEq

/-- `ResumeParser.parse_resume` from the already-extracted text `content`
(file reading is `read_file`; `_read_file` guarantees the text is non-empty).
`today` is `datetime.now().strftime("%Y-%m-%d")`; `ner` is the external
spaCy PERSON-entity lookup. -/
def parse_resume (ner : String → Option String) (today content : String) :
    Except String ParsedResume :=
  if content == "" then .error "Invalid or empty file content"
  else
    let name := pyOr (extract_name ner content) "Unknown"
    let email := pyOr (extract_email content) "Not provided"
    let phone := pyOr (extract_phone content) "Not provided"
    let skills := extract_skills content
    let education := extract_education today content
    let experience := extract_experience today content
    let total_experience := calculate_total_experience experience
    if name == "" && email == "" && phone == "" && skills.isEmpty &&
        education.isEmpty && experience.isEmpty then
      .error "Could not extract any information from the resume"
    else
      .ok { name, email, phone, skills, education, experience, total_experience }

/-- The spec's scenario input (claim C9). -/
def scenarioText : String :=
  "John Smith\njohnsmith@email.com\n555-123-4567\nPython, Django, AWS\nBachelor of Science in Computer Science, MIT, 2015-2019"

end Resume

/-! ## Theorems -/

/-! ### Character-level lemmas -/

theorem char_toNat_ofNat {n : Nat} (h : n < 55296) : (Char.ofNat n).toNat = n := by
  have hv : n.isValidChar := Or.inl h
  unfold Char.ofNat
  rw [dif_pos hv]
  rfl

theorem lowerChar_idem (c : Char) : lowerChar (lowerChar c) = lowerChar c := by
  unfold lowerChar
  by_cases h : 65 ≤ c.toNat ∧ c.toNat ≤ 90
  · rw [if_pos h]
    have h32 : (Char.ofNat (c.toNat + 32)).toNat = c.toNat + 32 :=
      char_toNat_ofNat (by omega)
    rw [if_neg (by rw [h32]; omega)]
  · rw [if_neg h, if_neg h]

theorem dropWhile_dropWhile (p : Char → Bool) (l : List Char) :
    (l.dropWhile p).dropWhile p = l.dropWhile p := by
  induction l with
  | nil => rfl
  | cons c cs ih =>
    by_cases h : p c = true
    · simp [List.dropWhile, h, ih]
    · simp [List.dropWhile, h]

theorem dropWhile_dropEndWhile (p : Char → Bool) (x : List Char)
    (hx : x.dropWhile p = x) : (dropEndWhile p x).dropWhile p = dropEndWhile p x := by
  cases x with
  | nil => rfl
  | cons c cs =>
    have hc : p c = false := by
      cases hpc : p c
      · rfl
      · exfalso
        rw [List.dropWhile_cons_of_pos hpc] at hx
        have h1 := congrArg List.length hx
        have h2 : (cs.dropWhile p).length ≤ cs.length := (cs.dropWhile_sublist p).length_le
        simp only [List.length_cons] at h1
        omega
    unfold dropEndWhile
    cases hdw : dropEndWhile p cs with
    | nil =>
      rw [hc]
      simp only [Bool.false_eq_true, if_false]
      rw [List.dropWhile_cons_of_neg (by rw [hc]; simp)]
    | cons d ds =>
      rw [List.dropWhile_cons_of_neg (by rw [hc]; simp)]

theorem dropEndWhile_cons (p : Char → Bool) (c : Char) (cs : List Char) :
    dropEndWhile p (c :: cs) =
      match dropEndWhile p cs with
      | [] => if p c then [] else [c]
      | d :: ds => c :: d :: ds := rfl

theorem dropEndWhile_idem (p : Char → Bool) (y : List Char) :
    dropEndWhile p (dropEndWhile p y) = dropEndWhile p y := by
  induction y with
  | nil => rfl
  | cons c cs ih =>
    rw [dropEndWhile_cons p c cs]
    cases hdw : dropEndWhile p cs with
    | nil =>
      cases hc : p c
      · simp only [Bool.false_eq_true, if_false]
        rw [dropEndWhile_cons]
        simp [dropEndWhile, hc]
      · simp only [if_true]
        rfl
    | cons d ds =>
      rw [hdw] at ih
      rw [dropEndWhile_cons p c (d :: ds), ih]

theorem stripChars_idem (l : List Char) : stripChars (stripChars l) = stripChars l := by
  unfold stripChars
  rw [dropWhile_dropEndWhile pySpaceChar (l.dropWhile pySpaceChar) (dropWhile_dropWhile _ _),
    dropEndWhile_idem]

theorem mem_dropEndWhile {p : Char → Bool} {l : List Char} {c : Char}
    (h : c ∈ dropEndWhile p l) : c ∈ l := by
  induction l with
  | nil => simp [dropEndWhile] at h
  | cons d ds ih =>
    unfold dropEndWhile at h
    cases hdw : dropEndWhile p ds with
    | nil =>
      rw [hdw] at h
      cases hd : p d
      · rw [hd] at h
        simp only [Bool.false_eq_true, if_false, List.mem_singleton] at h
        simp [h]
      · rw [hd] at h
        simp at h
    | cons e es =>
      rw [hdw] at h
      rcases List.mem_cons.mp h with h | h
      · simp [h]
      · exact List.mem_cons_of_mem _ (ih (hdw ▸ h))

theorem mem_stripChars {l : List Char} {c : Char} (h : c ∈ stripChars l) : c ∈ l := by
  unfold stripChars at h
  have h1 : c ∈ l.dropWhile pySpaceChar := mem_dropEndWhile h
  exact (l.dropWhile_sublist pySpaceChar).mem h1

theorem splitWhen_ne_nil (p : Char → Bool) (l : List Char) : splitWhen p l ≠ [] := by
  cases l with
  | nil => simp [splitWhen]
  | cons c cs =>
    unfold splitWhen
    by_cases h : p c = true
    · simp [h]
    · rw [if_neg h]
      cases hsw : splitWhen p cs <;> simp

theorem mem_splitWhen {p : Char → Bool} {l piece : List Char}
    (hp : piece ∈ splitWhen p l) : ∀ c ∈ piece, c ∈ l ∧ p c = false := by
  induction l generalizing piece with
  | nil =>
    simp only [splitWhen, List.mem_singleton] at hp
    subst hp
    simp
  | cons a as ih =>
    unfold splitWhen at hp
    by_cases ha : p a = true
    · rw [if_pos ha] at hp
      rcases List.mem_cons.mp hp with h | h
      · subst h; simp
      · intro c hc
        have hm := ih h c hc
        exact ⟨List.mem_cons_of_mem _ hm.1, hm.2⟩
    · rw [if_neg ha] at hp
      have ha' : p a = false := by
        simp only [Bool.not_eq_true] at ha
        exact ha
      cases hsw : splitWhen p as with
      | nil => exact absurd hsw (splitWhen_ne_nil p as)
      | cons q qs =>
        rw [hsw] at hp
        rcases List.mem_cons.mp hp with h | h
        · subst h
          intro c hc
          rcases List.mem_cons.mp hc with rfl | hc
          · exact ⟨List.mem_cons_self _ _, ha'⟩
          · have hq : q ∈ splitWhen p as := by rw [hsw]; exact List.mem_cons_self q qs
            have hm := ih hq c hc
            exact ⟨List.mem_cons_of_mem _ hm.1, hm.2⟩
        · intro c hc
          have hqs : piece ∈ splitWhen p as := by rw [hsw]; exact List.mem_cons_of_mem _ h
          have hm := ih hqs c hc
          exact ⟨List.mem_cons_of_mem _ hm.1, hm.2⟩

theorem splitWhen_of_no_delim {p : Char → Bool} {l : List Char}
    (h : ∀ c ∈ l, p c = false) : splitWhen p l = [l] := by
  induction l with
  | nil => rfl
  | cons a as ih =>
    unfold splitWhen
    rw [if_neg (by rw [h a (List.mem_cons_self a as)]; simp)]
    rw [ih (fun c hc => h c (List.mem_cons_of_mem _ hc))]

/-! ### `normalize_skills` lemmas (claims C2, C3, C4) -/

namespace Parser

theorem mem_subNonWord_lowerStr {l : List Char} {c : Char}
    (h : c ∈ subNonWord (lowerStr l)) :
    (wordChar c || pySpaceChar c) = true ∧ lowerChar c = c := by
  unfold subNonWord at h
  rcases List.mem_map.mp h with ⟨c₀, hc₀, hmap⟩
  by_cases hw : (wordChar c₀ || pySpaceChar c₀) = true
  · rw [if_pos hw] at hmap
    subst hmap
    refine ⟨hw, ?_⟩
    rcases List.mem_map.mp hc₀ with ⟨c₁, _, hc₁⟩
    subst hc₁
    exact lowerChar_idem c₁
  · rw [if_neg hw] at hmap
    subst hmap
    exact ⟨by decide, by decide⟩

theorem delimChar_eq_false {c : Char} (h : (wordChar c || pySpaceChar c) = true) :
    delimChar c = false := by
  cases hd : delimChar c
  · rfl
  · exfalso
    have hc : c = ',' ∨ c = '/' ∨ c = '&' ∨ c = '+' := by
      simpa [delimChar, or_assoc] using hd
    rcases hc with rfl | rfl | rfl | rfl <;> exact absurd h (by decide)

theorem mem_processSkill {s t : String} (h : s ∈ processSkill t) :
    (∃ kv, kv ∈ skill_mappings ∧ s = kv.2) ∨
    (stripChars s.data = s.data ∧ 2 ≤ s.data.length ∧
      (∀ c ∈ s.data, (wordChar c || pySpaceChar c) = true ∧ lowerChar c = c) ∧
      skillMapGet s = s ∧ stopTokens.contains s = false) := by
  unfold processSkill at h
  rcases List.mem_filterMap.mp h with ⟨part, hpart, hf⟩
  simp only at hf
  by_cases h1 : ((stripChars part).isEmpty || decide ((stripChars part).length < 2)) = true
  · rw [if_pos h1] at hf
    exact absurd hf (by simp)
  · rw [if_neg h1] at hf
    by_cases h2 :
        stopTokens.contains (skillMapGet (stripChars part).asString) = true
    · rw [if_pos h2] at hf
      exact absurd hf (by simp)
    · rw [if_neg h2] at hf
      have hs : skillMapGet (stripChars part).asString = s := Option.some.inj hf
      unfold skillMapGet at hs
      cases hfind :
          skill_mappings.find? (fun kv => kv.1 == (stripChars part).asString) with
      | some kv =>
        rw [hfind] at hs
        exact Or.inl ⟨kv, List.mem_of_find?_eq_some hfind, hs.symm⟩
      | none =>
        rw [hfind] at hs
        subst hs
        have hdata : ((stripChars part).asString).data = stripChars part := rfl
        refine Or.inr ⟨?_, ?_, ?_, ?_, ?_⟩
        · rw [hdata]
          exact stripChars_idem part
        · rw [hdata]
          simp only [Bool.or_eq_true, decide_eq_true_eq, not_or] at h1
          rcases h1 with ⟨he, hl⟩
          omega
        · rw [hdata]
          intro c hc
          have hc1 : c ∈ part := mem_stripChars hc
          have hc2 := mem_splitWhen hpart c hc1
          exact mem_subNonWord_lowerStr hc2.1
        · unfold skillMapGet
          rw [hfind]
        · simp only [Bool.not_eq_true] at h2
          unfold skillMapGet at h2
          rw [hfind] at h2
          exact h2

theorem mapping_values_fixed :
    skill_mappings.all (fun kv => processSkill kv.2 == [kv.2]) = true := by decide

theorem mapping_values_long :
    skill_mappings.all (fun kv => decide (2 ≤ kv.2.length)) = true := by decide

theorem processSkill_fixed_of_clean {s : String}
    (hstrip : stripChars s.data = s.data) (hlen : 2 ≤ s.data.length)
    (hchars : ∀ c ∈ s.data, (wordChar c || pySpaceChar c) = true ∧ lowerChar c = c)
    (hmap : skillMapGet s = s) (hstop : stopTokens.contains s = false) :
    processSkill s = [s] := by
  unfold processSkill
  have hlower : lowerStr s.data = s.data := by
    unfold lowerStr
    rw [List.map_congr_left (fun c hc => (hchars c hc).2)]
    simp
  have hsub : subNonWord s.data = s.data := by
    unfold subNonWord
    rw [List.map_congr_left (fun c hc => if_pos ((hchars c hc).1))]
    simp
  have hdelim : splitWhen delimChar s.data = [s.data] :=
    splitWhen_of_no_delim (fun c hc => delimChar_eq_false (hchars c hc).1)
  have hne : s.data.isEmpty = false := by
    cases hd : s.data with
    | nil => rw [hd] at hlen; simp at hlen
    | cons a as => rfl
  have hback : s.data.asString = s := rfl
  simp only [hlower, hsub, hdelim, List.filterMap_cons, List.filterMap_nil, hstrip]
  rw [if_neg (by simp only [hne, Bool.false_or, decide_eq_true_eq, not_lt]; omega)]
  rw [hback, hmap, hstop]
  simp

theorem processSkill_fixed {s t : String} (h : s ∈ processSkill t) :
    processSkill s = [s] := by
  rcases mem_processSkill h with ⟨kv, hkv, rfl⟩ | ⟨h1, h2, h3, h4, h5⟩
  · exact eq_of_beq (List.all_eq_true.mp mapping_values_fixed kv hkv)
  · exact processSkill_fixed_of_clean h1 h2 h3 h4 h5

theorem mem_normalize_skills {s : String} {x : List String}
    (h : s ∈ normalize_skills x) : ∃ t ∈ x, s ∈ processSkill t := by
  unfold normalize_skills at h
  by_cases hx : x.isEmpty
  · rw [if_pos hx] at h
    simp at h
  · rw [if_neg hx] at h
    have h1 : s ∈ (x.flatMap processSkill).dedup := (List.mem_insertionSort _).mp h
    exact List.mem_flatMap.mp (List.mem_dedup.mp h1)

theorem normalize_skills_sorted (x : List String) :
    List.Sorted strDataLe (normalize_skills x) := by
  unfold normalize_skills
  by_cases hx : x.isEmpty
  · rw [if_pos hx]
    exact List.sorted_nil
  · rw [if_neg hx]
    exact List.sorted_insertionSort strDataLe _

theorem normalize_skills_nodup (x : List String) : (normalize_skills x).Nodup := by
  unfold normalize_skills
  by_cases hx : x.isEmpty
  · rw [if_pos hx]
    exact List.nodup_nil
  · rw [if_neg hx]
    exact ((List.perm_insertionSort strDataLe _).nodup_iff).mpr (List.nodup_dedup _)

theorem flatMap_self_of_fixed {l : List String}
    (h : ∀ s ∈ l, processSkill s = [s]) : l.flatMap processSkill = l := by
  induction l with
  | nil => rfl
  | cons a as ih =>
    rw [List.flatMap_cons, h a (List.mem_cons_self a as),
      ih (fun s hs => h s (List.mem_cons_of_mem _ hs))]
    rfl

/-- Claim C3: `normalize_skills` is idempotent — applying it to its own output
returns that output unchanged, for every input list of strings. -/
theorem normalize_skills_idempotent_C3 (x : List String) :
    normalize_skills (normalize_skills x) = normalize_skills x := by
  have hfix : ∀ s ∈ normalize_skills x, processSkill s = [s] := by
    intro s hs
    obtain ⟨t, _, hst⟩ := mem_normalize_skills hs
    exact processSkill_fixed hst
  have hnd := normalize_skills_nodup x
  have hsort := normalize_skills_sorted x
  by_cases hL : (normalize_skills x).isEmpty
  · rw [List.isEmpty_iff.mp hL]
    rfl
  · generalize hLdef : normalize_skills x = L at hL hfix hnd hsort ⊢
    unfold normalize_skills
    rw [if_neg hL, flatMap_self_of_fixed hfix, List.dedup_eq_self.mpr hnd]
    exact List.Sorted.insertionSort_eq hsort

/-- Claim C4: the output of `normalize_skills` is lexicographically sorted in
ascending order, duplicate-free, and contains no string of length < 2. -/
theorem normalize_skills_invariants_C4 (x : List String) :
    List.Sorted (· ≤ ·) (normalize_skills x) ∧
    (normalize_skills x).Nodup ∧
    ∀ s ∈ normalize_skills x, 2 ≤ s.length := by
  refine ⟨?_, normalize_skills_nodup x, ?_⟩
  · exact (normalize_skills_sorted x).imp (fun h => String.le_iff_toList_le.mpr h)
  · intro s hs
    obtain ⟨t, _, hst⟩ := mem_normalize_skills hs
    rcases mem_processSkill hst with ⟨kv, hkv, rfl⟩ | ⟨_, h2, _, _, _⟩
    · exact of_decide_eq_true (List.all_eq_true.mp mapping_values_long kv hkv)
    · exact h2

/-- Witness for C4 at a concrete input: `normalize_skills ["JS"]` is sorted,
duplicate-free, and its element `"javascript"` has length at least 2. -/
theorem normalize_skills_invariants_C4_witness :
    List.Sorted (· ≤ ·) (normalize_skills ["JS"]) ∧
    (normalize_skills ["JS"]).Nodup ∧ 2 ≤ ("javascript" : String).length :=
  ⟨(normalize_skills_invariants_C4 ["JS"]).1,
    (normalize_skills_invariants_C4 ["JS"]).2.1,
    (normalize_skills_invariants_C4 ["JS"]).2.2 "javascript" (by decide)⟩

/-- Claim C2 counterexample: on the spec's scenario input the code does NOT
return the list claimed by the spec.  The `re.sub` step replaces `/` with a
space before the split on `[,/&+]` ever sees it, so `"AWS/Azure"` survives as
the single unmapped token "aws azure". -/
theorem normalize_skills_scenario_C2_cex :
    Parser.normalize_skills ["JS", "Node.js", "  ", "AWS/Azure"] ≠
      ["amazon web services", "javascript", "microsoft azure", "nodejs"] := by decide

/-- Claim C2 amended: the scenario input normalizes to
`["aws azure", "javascript", "nodejs"]` — "JS" is alias-mapped to
"javascript", "Node.js" becomes "node js" which is alias-mapped to "nodejs",
the blank entry is dropped, and "AWS/Azure" becomes the single token
"aws azure" because the delimiter `/` is replaced by a space before the split. -/
theorem normalize_skills_scenario_C2 :
    Parser.normalize_skills ["JS", "Node.js", "  ", "AWS/Azure"] =
      ["aws azure", "javascript", "nodejs"] := by decide

end Parser

/-! ### Similarity lemmas (claim C1) -/

namespace Similarity

/-- Claim C1: with the tfidf method, the overall score returned by
`calculate_similarity` equals `0.6 × skills + 0.2 × location +
0.2 × experience` over the returned detailed scores, and whenever either
side's skills list is empty the skills component is exactly `0`, so the
overall score is `0.2 × location + 0.2 × experience`.  Quantified over every
sklearn cosine behaviour `cos` (including the empty-vocabulary `ValueError`,
modelled as `none`). -/
theorem tfidf_weighted_score_C1 (cos : String → String → Option ℚ)
    (emb : ℚ × DetailedScores) (job_info candidate : Profile) :
    ((calculate_similarity SimMethod.tfidf cos emb job_info candidate).1 =
      0.6 * (calculate_similarity SimMethod.tfidf cos emb job_info candidate).2.skills +
      0.2 * (calculate_similarity SimMethod.tfidf cos emb job_info candidate).2.location +
      0.2 * (calculate_similarity SimMethod.tfidf cos emb job_info candidate).2.experience) ∧
    ((job_info.skills.getD []).isEmpty = true ∨
        (candidate.skills.getD []).isEmpty = true →
      (calculate_similarity SimMethod.tfidf cos emb job_info candidate).2.skills = 0 ∧
      (calculate_similarity SimMethod.tfidf cos emb job_info candidate).1 =
        0.2 * (calculate_similarity SimMethod.tfidf cos emb job_info candidate).2.location +
        0.2 * (calculate_similarity SimMethod.tfidf cos emb job_info candidate).2.experience) := by
  constructor
  · simp only [calculate_similarity, calcTfidfSimilarity]
    ring
  · intro h
    have hsk0 :
        calcSkillsSimilarity cos (job_info.skills.getD []) (candidate.skills.getD []) = 0 := by
      unfold calcSkillsSimilarity
      rw [if_pos (by rcases h with h | h <;> simp [h])]
    simp only [calculate_similarity, calcTfidfSimilarity]
    refine ⟨hsk0, ?_⟩
    rw [hsk0]
    ring

/-- Witness for C1 at a concrete input: a job asking for python/sql against a
candidate with an empty skills list: the skills component is 0 and the
overall score is 0.2 × location + 0.2 × experience. -/
theorem tfidf_weighted_score_C1_witness :
    (calculate_similarity SimMethod.tfidf (fun _ _ => some (1/2)) (0, ⟨0, 0, 0⟩)
        ⟨some ["python", "sql"], some "ny", some "senior"⟩
        ⟨some [], some "ny", some "junior"⟩).2.skills = 0 ∧
    (calculate_similarity SimMethod.tfidf (fun _ _ => some (1/2)) (0, ⟨0, 0, 0⟩)
        ⟨some ["python", "sql"], some "ny", some "senior"⟩
        ⟨some [], some "ny", some "junior"⟩).1 =
      0.2 * (calculate_similarity SimMethod.tfidf (fun _ _ => some (1/2)) (0, ⟨0, 0, 0⟩)
        ⟨some ["python", "sql"], some "ny", some "senior"⟩
        ⟨some [], some "ny", some "junior"⟩).2.location +
      0.2 * (calculate_similarity SimMethod.tfidf (fun _ _ => some (1/2)) (0, ⟨0, 0, 0⟩)
        ⟨some ["python", "sql"], some "ny", some "senior"⟩
        ⟨some [], some "ny", some "junior"⟩).2.experience :=
  (tfidf_weighted_score_C1 (fun _ _ => some (1/2)) (0, ⟨0, 0, 0⟩)
    ⟨some ["python", "sql"], some "ny", some "senior"⟩
    ⟨some [], some "ny", some "junior"⟩).2 (Or.inr rfl)

end Similarity

/-! ### Ranker lemmas (claims C6, C10) -/

namespace Ranker

theorem filter_orderedInsert (q : ℚ) (a : Dict) (L : List Dict) :
    (List.orderedInsert rankRel a L).filter (fun d => decide (scoreOf d = q)) =
      if scoreOf a = q then
        a :: L.filter (fun d => decide (scoreOf d = q))
      else L.filter (fun d => decide (scoreOf d = q)) := by
  induction L with
  | nil =>
    by_cases ha : scoreOf a = q
    · simp [List.orderedInsert, List.filter, ha]
    · simp [List.orderedInsert, List.filter, ha]
  | cons b l ih =>
    by_cases hab : rankRel a b
    · rw [List.orderedInsert_of_le rankRel l hab]
      by_cases ha : scoreOf a = q
      · simp [List.filter_cons, ha]
      · simp [List.filter_cons, ha]
    · have hb : scoreOf a < scoreOf b := lt_of_not_le hab
      have hstep : List.orderedInsert rankRel a (b :: l) =
          b :: List.orderedInsert rankRel a l := by
        simp only [List.orderedInsert, if_neg hab]
      rw [hstep]
      by_cases ha : scoreOf a = q
      · have hbq : ¬ scoreOf b = q := by
          rw [← ha]
          exact ne_of_gt hb
        rw [if_pos ha] at ih ⊢
        simp [List.filter_cons, hbq, ih]
      · rw [if_neg ha] at ih ⊢
        by_cases hbq : scoreOf b = q
        · simp [List.filter_cons, hbq, ih]
        · simp [List.filter_cons, hbq, ih]

theorem filter_insertionSort (q : ℚ) (L : List Dict) :
    (List.insertionSort rankRel L).filter (fun d => decide (scoreOf d = q)) =
      L.filter (fun d => decide (scoreOf d = q)) := by
  induction L with
  | nil => rfl
  | cons a l ih =>
    show (List.orderedInsert rankRel a (List.insertionSort rankRel l)).filter _ = _
    rw [filter_orderedInsert]
    by_cases ha : scoreOf a = q
    · rw [if_pos ha, ih]
      simp [List.filter_cons, ha]
    · rw [if_neg ha, ih]
      simp [List.filter_cons, ha]

/-- Claim C6: `rank` returns exactly the scored copies of its input
candidates (a permutation), ordered descending by the computed score, and it
is stable — for every score value `q`, the sub-list of ranked candidates
scoring `q` is the sub-list of the input (in input order) scoring `q`. -/
theorem rank_sorted_stable_C6 (candidates : List Dict)
    (similarity_scores : List ℚ) :
    (rank candidates similarity_scores).Perm
        (scoredCandidates candidates similarity_scores) ∧
    (rank candidates similarity_scores).Sorted rankRel ∧
    ∀ q : ℚ,
      (rank candidates similarity_scores).filter (fun d => decide (scoreOf d = q)) =
        (scoredCandidates candidates similarity_scores).filter
          (fun d => decide (scoreOf d = q)) :=
  ⟨List.perm_insertionSort rankRel _, List.sorted_insertionSort rankRel _,
    fun q => filter_insertionSort q _⟩

theorem getVal_setKey_self (d : Dict) (k : String) (v : Val) :
    getVal (setKey d k v) k = some v := by
  induction d with
  | nil => simp [setKey, getVal, List.find?]
  | cons kv rest ih =>
    unfold setKey
    by_cases h : (kv.1 == k) = true
    · rw [if_pos h]
      simp only [getVal, List.find?]
      rw [h]
      rfl
    · rw [if_neg h]
      simp only [getVal, List.find?] at ih ⊢
      rw [Bool.of_not_eq_true h]
      exact ih

theorem getVal_setKey_ne (d : Dict) (k : String) (v : Val) (k' : String)
    (h : k' ≠ k) : getVal (setKey d k v) k' = getVal d k' := by
  induction d with
  | nil =>
    simp only [setKey, getVal, List.find?]
    rw [show (k == k') = false from beq_eq_false_iff_ne.mpr (fun hk => h hk.symm)]
  | cons kv rest ih =>
    unfold setKey
    by_cases hk : kv.1 == k
    · rw [if_pos hk]
      have hkk : kv.1 = k := eq_of_beq hk
      simp only [getVal, List.find?]
      rw [show (kv.1 == k') = false from
        beq_eq_false_iff_ne.mpr (by rw [hkk]; exact fun hh => h hh.symm)]
    · rw [if_neg hk]
      simp only [getVal, List.find?] at ih ⊢
      cases hkv : (kv.1 == k') with
      | true => rfl
      | false => exact ih

/-- Claim C10: `rank` does not mutate its input.  Over the explicit store:
(1) every pre-existing cell is unchanged after the call; (2) every address
returned is a freshly allocated cell; (3) the `j`-th fresh cell holds the
`j`-th input dict with its `'score'` key set to the `j`-th score; and
(4) setting `'score'` changes no other key and makes `'score'` hold the
assigned score. -/
theorem rank_no_mutation_C10 (σ : Store) (addrs : List Nat) (scores : List ℚ) :
    (∀ i, i < σ.length → (rankHeap σ addrs scores).1[i]? = σ[i]?) ∧
    (∀ a ∈ (rankHeap σ addrs scores).2, σ.length ≤ a) ∧
    (∀ j a s, (addrs.zip scores)[j]? = some (a, s) →
      (rankHeap σ addrs scores).1[σ.length + j]? =
        some (setKey (σ.getD a []) "score" (Val.num s))) ∧
    (∀ (d : Dict) (k : String) (v : Val), k ≠ "score" →
      getVal (setKey d "score" v) k = getVal d k ∧
      getVal (setKey d "score" v) "score" = some v) := by
  refine ⟨?_, ?_, ?_, ?_⟩
  · intro i hi
    show (σ ++ _)[i]? = σ[i]?
    rw [List.getElem?_append_left hi]
  · intro a ha
    have h1 : a ∈ List.range' σ.length _ :=
      (List.mem_insertionSort (heapRel _)).mp ha
    exact (List.mem_range'_1.mp h1).1
  · intro j a s hj
    show (σ ++ _)[σ.length + j]? = _
    rw [List.getElem?_append_right (Nat.le_add_right _ _)]
    simp only [Nat.add_sub_cancel_left]
    rw [List.getElem?_map, hj]
    rfl
  · intro d k v hk
    exact ⟨getVal_setKey_ne d "score" v k hk, getVal_setKey_self d "score" v⟩

/-- Witness for C10 at a concrete store of two candidate dicts. -/
theorem rank_no_mutation_C10_witness :
    (rankHeap [[("name", Val.str "ada")], [("name", Val.str "bob")]]
        [0, 1] [1/2, 3/4]).1[0]? = [[("name", Val.str "ada")], [("name", Val.str "bob")]][0]? ∧
    (rankHeap [[("name", Val.str "ada")], [("name", Val.str "bob")]]
        [0, 1] [1/2, 3/4]).1[2 + 0]? =
      some (setKey [("name", Val.str "ada")] "score" (Val.num (1/2))) ∧
    getVal (setKey [("name", Val.str "ada")] "score" (Val.num (1/2))) "name" =
      getVal [("name", Val.str "ada")] "name" := by
  have h := rank_no_mutation_C10 [[("name", Val.str "ada")], [("name", Val.str "bob")]]
    [0, 1] [1/2, 3/4]
  exact ⟨h.1 0 (by decide), by
      have h3 := h.2.2.1 0 0 (1/2) rfl
      simpa using h3,
    (h.2.2.2 [("name", Val.str "ada")] "name" (Val.num (1/2)) (by decide)).1⟩

end Ranker

/-! ### Total-experience lemmas (claim C5) -/

namespace Resume

theorem parse_getD_of_not_truthy {o : Option String} (h : pyTruthy o = false) :
    parseYMD (o.getD "") = none := by
  cases o with
  | none => rfl
  | some s =>
    simp only [pyTruthy, Bool.not_eq_false'] at h
    rw [show s = "" from eq_of_beq h]
    rfl

theorem entry_step (exp : ExpEntry) (acc : ℚ) :
    (if pyTruthy exp.start_date && pyTruthy exp.end_date then
      match parseYMD (exp.start_date.getD ""), parseYMD (exp.end_date.getD "") with
      | some s, some e => acc + ((toOrdinal e - toOrdinal s : ℤ) : ℚ) / (365.25 : ℚ)
      | _, _ => acc
    else acc) = acc + (entryDuration exp).getD 0 := by
  unfold entryDuration
  by_cases h : (pyTruthy exp.start_date && pyTruthy exp.end_date) = true
  · rw [if_pos h]
    cases h1 : parseYMD (exp.start_date.getD "") with
    | none => simp
    | some s =>
      cases h2 : parseYMD (exp.end_date.getD "") with
      | none => simp
      | some e => simp
  · rw [if_neg h]
    have h' : pyTruthy exp.start_date = false ∨ pyTruthy exp.end_date = false := by
      rcases Bool.not_eq_true _ ▸ h with hh
      rcases hs : pyTruthy exp.start_date with _ | _
      · exact Or.inl rfl
      · rcases he : pyTruthy exp.end_date with _ | _
        · exact Or.inr rfl
        · rw [hs, he] at hh
          simp at hh
    rcases h' with h1 | h1
    · rw [parse_getD_of_not_truthy h1]
      simp
    · rw [parse_getD_of_not_truthy h1]
      cases parseYMD (exp.start_date.getD "") <;> simp

theorem foldl_add_getD (l : List ExpEntry) (init : ℚ) :
    l.foldl (fun acc e => acc + (entryDuration e).getD 0) init =
      init + (l.filterMap entryDuration).sum := by
  induction l generalizing init with
  | nil => simp
  | cons a as ih =>
    simp only [List.foldl_cons, List.filterMap_cons]
    cases hg : entryDuration a with
    | none =>
      simp only [hg, Option.getD_none, add_zero]
      exact ih init
    | some v =>
      simp only [hg, Option.getD_some, List.sum_cons]
      rw [ih (init + v)]
      ring

theorem calc_eq_spec (experience : List ExpEntry) :
    calculate_total_experience experience = specTotalYears experience := by
  unfold calculate_total_experience specTotalYears
  have hfun : (fun (acc : ℚ) (exp : ExpEntry) =>
      if pyTruthy exp.start_date && pyTruthy exp.end_date then
        match parseYMD (exp.start_date.getD ""), parseYMD (exp.end_date.getD "") with
        | some s, some e => acc + ((toOrdinal e - toOrdinal s : ℤ) : ℚ) / (365.25 : ℚ)
        | _, _ => acc
      else acc) = fun acc exp => acc + (entryDuration exp).getD 0 := by
    funext acc exp
    exact entry_step exp acc
  rw [hfun, foldl_add_getD]
  simp

theorem roundHalfEven_nonneg {q : ℚ} (h : 0 ≤ q) : 0 ≤ roundHalfEven q := by
  unfold roundHalfEven
  have hf : (0 : ℤ) ≤ ⌊q⌋ := Int.floor_nonneg.mpr h
  split_ifs <;> omega

theorem roundTo1_nonneg {q : ℚ} (h : 0 ≤ q) : 0 ≤ roundTo1 q := by
  unfold roundTo1
  apply div_nonneg _ (by norm_num)
  exact_mod_cast roundHalfEven_nonneg (by positivity)

theorem entryDuration_nonneg {exp : ExpEntry} {v : ℚ}
    (hv : entryDuration exp = some v)
    (hord : (match entryOrds exp with
      | some p => decide (p.1 ≤ p.2)
      | none => true) = true) : 0 ≤ v := by
  unfold entryDuration at hv
  unfold entryOrds at hord
  cases h1 : parseYMD (exp.start_date.getD "") with
  | none => rw [h1] at hv; exact absurd hv (by simp)
  | some s =>
    cases h2 : parseYMD (exp.end_date.getD "") with
    | none => rw [h1, h2] at hv; exact absurd hv (by simp)
    | some e =>
      rw [h1, h2] at hv hord
      simp only [Option.some.injEq] at hv
      simp only [decide_eq_true_eq] at hord
      subst hv
      apply div_nonneg _ (by norm_num)
      have : (toOrdinal s : ℚ) ≤ (toOrdinal e : ℚ) := by exact_mod_cast hord
      push_cast
      linarith

/-- Claim C5 (amended): `_calculate_total_experience` always equals the
documented day-count/365.25 sum over the entries whose dates both parse
(entries with missing or unparsable dates are skipped without error), and the
result is ≥ 0 provided every such entry has start ≤ end; without that
proviso the result can be negative (see the counterexample). -/
theorem total_experience_C5 (experience : List ExpEntry) :
    calculate_total_experience experience = specTotalYears experience ∧
    ((experience.all fun exp =>
        match entryOrds exp with
        | some p => decide (p.1 ≤ p.2)
        | none => true) = true →
      0 ≤ calculate_total_experience experience) := by
  refine ⟨calc_eq_spec experience, fun H => ?_⟩
  rw [calc_eq_spec experience]
  unfold specTotalYears
  apply roundTo1_nonneg
  apply List.sum_nonneg
  intro v hv
  rcases List.mem_filterMap.mp hv with ⟨exp, hexp, hdur⟩
  exact entryDuration_nonneg hdur (List.all_eq_true.mp H exp hexp)

/-- Witness for C5 at a concrete entry (2015-01-01 … 2019-12-31, 5.0 years). -/
theorem total_experience_C5_witness :
    calculate_total_experience
        [{ start_date := some "2015-01-01", end_date := some "2019-12-31" }] =
      specTotalYears
        [{ start_date := some "2015-01-01", end_date := some "2019-12-31" }] ∧
    0 ≤ calculate_total_experience
        [{ start_date := some "2015-01-01", end_date := some "2019-12-31" }] :=
  ⟨(total_experience_C5 _).1, (total_experience_C5 _).2 (by decide)⟩

/-- Claim C5 counterexample: an entry whose end date (2019-01-01) precedes its
start date (2020-01-01) — both parseable — makes the function return −1.0,
so the returned value is not ≥ 0 as claimed. -/
theorem total_experience_C5_cex :
    calculate_total_experience
      [{ start_date := some "2020-01-01", end_date := some "2019-01-01" }] < 0 := by
  have hstep : calculate_total_experience
      [{ start_date := some "2020-01-01", end_date := some "2019-01-01" }] =
      roundTo1 (0 + ((-365 : ℤ) : ℚ) / (365.25 : ℚ)) := rfl
  rw [hstep]
  unfold roundTo1 roundHalfEven
  norm_num

/-! ### `_read_file` lemmas (claim C8) -/

/-- Claim C8 (amended): for an existing file, `_read_file` errors with the
unsupported-format error exactly when the lowercased extension is none of
`.pdf`, `.docx`, `.txt`; for a supported extension it errors with the
empty-content error exactly when the extracted text is empty BEFORE
trimming, and otherwise returns the trimmed text (which may itself be empty,
for whitespace-only content — see the counterexample);
a missing file fails with file-not-found. -/
theorem read_file_C8 (pdfText docxText txtText : String) (path : String) :
    (lowerString (splitextExt path) ∉ [".pdf", ".docx", ".txt"] →
      read_file true pdfText docxText txtText path = .error .unsupportedFormat) ∧
    (lowerString (splitextExt path) = ".pdf" → pdfText = "" →
      read_file true pdfText docxText txtText path = .error .emptyContent) ∧
    (lowerString (splitextExt path) = ".pdf" → pdfText ≠ "" →
      read_file true pdfText docxText txtText path = .ok (pyStrip pdfText)) ∧
    (lowerString (splitextExt path) = ".docx" → docxText = "" →
      read_file true pdfText docxText txtText path = .error .emptyContent) ∧
    (lowerString (splitextExt path) = ".docx" → docxText ≠ "" →
      read_file true pdfText docxText txtText path = .ok (pyStrip docxText)) ∧
    (lowerString (splitextExt path) = ".txt" → txtText = "" →
      read_file true pdfText docxText txtText path = .error .emptyContent) ∧
    (lowerString (splitextExt path) = ".txt" → txtText ≠ "" →
      read_file true pdfText docxText txtText path = .ok (pyStrip txtText)) ∧
    read_file false pdfText docxText txtText path = .error .fileNotFound := by
  refine ⟨?_, ?_, ?_, ?_, ?_, ?_, ?_, rfl⟩
  · intro h
    have h1 : (lowerString (splitextExt path) == ".pdf") = false :=
      beq_eq_false_iff_ne.mpr (fun he => h (by rw [he]; simp))
    have h2 : (lowerString (splitextExt path) == ".docx") = false :=
      beq_eq_false_iff_ne.mpr (fun he => h (by rw [he]; simp))
    have h3 : (lowerString (splitextExt path) == ".txt") = false :=
      beq_eq_false_iff_ne.mpr (fun he => h (by rw [he]; simp))
    simp [read_file, h1, h2, h3]
  · intro h he
    simp [read_file, h, he]
  · intro h he
    simp [read_file, h, he]
  · intro h he
    by_cases hp : lowerString (splitextExt path) = ".pdf"
    · rw [h] at hp
      exact absurd hp (by decide)
    · simp [read_file, h, hp, he]
  · intro h he
    by_cases hp : lowerString (splitextExt path) = ".pdf"
    · rw [h] at hp
      exact absurd hp (by decide)
    · simp [read_file, h, hp, he]
  · intro h he
    by_cases hp : lowerString (splitextExt path) = ".pdf"
    · rw [h] at hp
      exact absurd hp (by decide)
    · by_cases hd : lowerString (splitextExt path) = ".docx"
      · rw [h] at hd
        exact absurd hd (by decide)
      · simp [read_file, h, hp, hd, he]
  · intro h he
    by_cases hp : lowerString (splitextExt path) = ".pdf"
    · rw [h] at hp
      exact absurd hp (by decide)
    · by_cases hd : lowerString (splitextExt path) = ".docx"
      · rw [h] at hd
        exact absurd hd (by decide)
      · simp [read_file, h, hp, hd, he]

/-- Witness for C8 at concrete paths: an unrecognized extension errors, a
`.PDF` file (case-insensitive) with content is read and trimmed, a missing
`.txt` extraction errors. -/
theorem read_file_C8_witness :
    read_file true "" "" "" "cv.exe" = .error .unsupportedFormat ∧
    read_file true " hello " "" "" "cv.PDF" = .ok "hello" ∧
    read_file true "x" "x" "" "docs/cv.txt" = .error .emptyContent := by
  refine ⟨(read_file_C8 "" "" "" "cv.exe").1 (by decide), ?_, ?_⟩
  · have h := (read_file_C8 " hello " "" "" "cv.PDF").2.2.1 (by decide) (by decide)
    rw [h]
    rfl
  · exact (read_file_C8 "x" "x" "" "docs/cv.txt").2.2.2.2.2.1 (by decide) rfl

/-- Claim C8 counterexample: a `.txt` file whose extracted text is whitespace
only.  After trimming the text is empty, so the claim demands an
empty-content error, but the code checks emptiness before trimming and
returns `ok ""`. -/
theorem read_file_C8_cex :
    pyStrip "   " = "" ∧
    read_file true "" "" "   " "resume.txt" = Except.ok "" := ⟨rfl, rfl⟩

/-! ### `parse_resume` lemmas (claims C7, C9) -/

theorem pyOr_ne_empty (s d : String) (hd : (d == "") = false) :
    (pyOr s d == "") = false := by
  unfold pyOr
  by_cases hs : (s == "") = true
  · rw [if_pos hs]
    exact hd
  · rw [if_neg hs]
    exact Bool.not_eq_true _ ▸ hs

/-- Claim C7 (code bug): `parse_resume` NEVER signals the
no-extractable-content error.  The all-defaults check compares the
post-default values, and `name` is always non-empty after
`self._extract_name(content) or "Unknown"`, so the check can never fire:
for every NER behaviour, date and non-empty content, parsing succeeds — in
particular on the failing input `"#### ####"`, where every component
extractor returns its default, parse returns the all-defaults record instead
of raising. -/
theorem parse_resume_C7 :
    (∀ (ner : String → Option String) (today content : String), content ≠ "" →
      ∃ r, parse_resume ner today content = .ok r) ∧
    parse_resume (fun _ => none) "2026-10-12" "#### ####" =
      .ok { name := "Unknown", email := "Not provided", phone := "Not provided",
            skills := [], education := [], experience := [],
            total_experience := roundTo1 0 } := by
  constructor
  · intro ner today content h
    have h0 : (content == "") = false := beq_eq_false_iff_ne.mpr h
    have h1 : (pyOr (extract_name ner content) "Unknown" == "") = false :=
      pyOr_ne_empty _ _ rfl
    simp only [parse_resume, h0, h1, Bool.false_eq_true, if_false,
      Bool.false_and]
    exact ⟨_, rfl⟩
  · rfl

/-- Witness for C7's universal part at a concrete input. -/
theorem parse_resume_C7_witness :
    ∃ r, parse_resume (fun _ => none) "2026-10-12" "hello world" = .ok r :=
  parse_resume_C7.1 (fun _ => none) "2026-10-12" "hello world" (by decide)

/-- Claim C9 counterexample: on the spec's scenario text the education
extractor emits NO entry at all (the education line contains none of
`university`/`college`/`institute`, so `institution` stays empty and the
accumulator is discarded), contradicting "exactly one education entry". -/
theorem parse_scenario_C9_cex :
    ¬ ∃ e : EduEntry, extract_education "2026-10-12" scenarioText = [e] := by
  rintro ⟨e, he⟩
  rw [show extract_education "2026-10-12" scenarioText = [] from rfl] at he
  exact absurd he (by simp)

/-- Claim C9 (amended): for the scenario input, with the external NER finding
no entity (the capitalized-words fallback then applies), parse yields
name "John Smith", email "johnsmith@email.com", phone "5551234567",
skills ["python", "django", "aws"] (so containing "python" and "django"),
but NO education entry (and no experience entry), for every value of
"today". -/
theorem parse_scenario_C9 (ner : String → Option String) (today : String)
    (h : ner scenarioText = none) :
    parse_resume ner today scenarioText =
      .ok { name := "John Smith", email := "johnsmith@email.com",
            phone := "5551234567", skills := ["python", "django", "aws"],
            education := [], experience := [],
            total_experience := roundTo1 0 } := by
  have hname : extract_name ner scenarioText = "John Smith" := by
    unfold extract_name
    rw [if_neg (by decide), h]
    rfl
  have heml : extract_email scenarioText = "johnsmith@email.com" := rfl
  have hph : extract_phone scenarioText = "5551234567" := rfl
  have hsk : extract_skills scenarioText = ["python", "django", "aws"] := rfl
  have hedu : extract_education today scenarioText = [] := rfl
  have hexp : extract_experience today scenarioText = [] := rfl
  simp only [parse_resume, hname, heml, hph, hsk, hedu, hexp]
  rfl

/-- Witness for C9 at the always-`none` NER and a concrete date. -/
theorem parse_scenario_C9_witness :
    parse_resume (fun _ => none) "2026-10-12" scenarioText =
      .ok { name := "John Smith", email := "johnsmith@email.com",
            phone := "5551234567", skills := ["python", "django", "aws"],
            education := [], experience := [],
            total_experience := roundTo1 0 } :=
  parse_scenario_C9 (fun _ => none) "2026-10-12" rfl

end Resume

end HireAI
